import Mathlib

/-!
Shallow embedding of `sparktestingbase/sqltestcase.py` (the
`assertDataFrameEqual` routine of `SQLTestCase`) and proofs about it.

Modelling conventions:
* Python field values are `PyVal`; Python floats are `PyFloat`, either a
  finite rational or NaN.  Rationals stand in for IEEE doubles: the code
  only subtracts, takes `abs` and compares, and the claims under study are
  about exact thresholds and NaN propagation, not rounding.
* Python `==` is `pyEq`/`pyEqL`: structural value equality with Python's
  numeric cross-type equalities (`1 == 1.0`, `True == 1`) and `nan != nan`.
  Records flowing through the RDD pipeline are independently deserialized
  objects, so value equality is the right model there.  CPython's `x == y`
  on tuples additionally returns `True` whenever `x` and `y` are the same
  object (the interpreter compares items with an identity shortcut); the
  `sameObj` flag of `equal` records whether the two records are the same
  runtime object.  The pipeline always compares distinct objects
  (`sameObj := false`).
* A raised `TypeError` is `Option.none` / `Except.error`.
* A `DataFrame` is a schema descriptor plus its ordered row list; the
  engine-provided ordering guarantees assumed by the source are baked in.
* `cache()` / `unpersist()` calls are recorded in an event trace so that
  the `try`/`finally` resource discipline can be stated.
-/

/-- A Python float: either a finite value (modelled as a rational) or NaN. -/
inductive PyFloat where
  | nan : PyFloat
  | fin : ℚ → PyFloat
deriving DecidableEq

/-- A Python value as it appears in a pyspark `Row`: ints, floats, strings,
booleans, `None`, lists and nested rows (tuples). -/
inductive PyVal where
  | int : ℤ → PyVal
  | float : PyFloat → PyVal
  | str : String → PyVal
  | bool : Bool → PyVal
  | noneV : PyVal
  | list : List PyVal → PyVal
  | row : List PyVal → PyVal

/-- The numeric value of a Python bool (`True == 1`, `False == 0`). -/
def boolQ (b : Bool) : ℚ := if b then 1 else 0

/-- Python float subtraction: NaN propagates. -/
def pfSub : PyFloat → PyFloat → PyFloat
  | .fin a, .fin b => .fin (a - b)
  | _, _ => .nan

/-- Python `abs` on a float: NaN maps to NaN. -/
def pyFloatAbs : PyFloat → PyFloat
  | .nan => .nan
  | .fin q => .fin |q|

/-- Python `x > t` for a float `x` and a finite tolerance `t`: every
comparison against NaN is `False`. -/
def pyFloatGtQ (x : PyFloat) (t : ℚ) : Bool :=
  match x with
  | .nan => false
  | .fin q => decide (t < q)

/-- Python `x <= t` for a float `x` and finite `t`; `False` when `x` is NaN. -/
def pyFloatLeQ (x : PyFloat) (t : ℚ) : Bool :=
  match x with
  | .nan => false
  | .fin q => decide (q ≤ t)

mutual
/-- Python `==` on values: structural, with numeric cross-type equality
(`1 == 1.0 == True`) and `nan != nan`; values of unrelated types are
unequal (a tuple is never `==` to a list). -/
def pyEq : PyVal → PyVal → Bool
  | .int n, .int m => decide (n = m)
  | .int n, .float g =>
    match g with
    | .fin q => decide ((n : ℚ) = q)
    | .nan => false
  | .int n, .bool t => decide (n = (if t then 1 else 0))
  | .float f, .int m =>
    match f with
    | .fin q => decide (q = (m : ℚ))
    | .nan => false
  | .float f, .float g =>
    match f, g with
    | .fin a, .fin c => decide (a = c)
    | _, _ => false
  | .float f, .bool t =>
    match f with
    | .fin q => decide (q = boolQ t)
    | .nan => false
  | .bool s, .int m => decide ((if s then 1 else 0 : ℤ) = m)
  | .bool s, .float g =>
    match g with
    | .fin q => decide (boolQ s = q)
    | .nan => false
  | .bool s, .bool t => s == t
  | .str a, .str c => decide (a = c)
  | .noneV, .noneV => true
  | .list xs, .list ys => pyEqL xs ys
  | .row xs, .row ys => pyEqL xs ys
  | _, _ => false

/-- Python `==` on two sequences (tuple/list contents): same length and
pairwise `pyEq`. -/
def pyEqL : List PyVal → List PyVal → Bool
  | [], [] => true
  | x :: xs, y :: ys => pyEq x y && pyEqL xs ys
  | _, _ => false
end

/-- Whether a value supports being subtracted from a float
(`float.__sub__` accepts ints, floats and bools). -/
def isNumericV : PyVal → Bool
  | .int _ => true
  | .float _ => true
  | .bool _ => true
  | _ => false

/-- Python `a - b` where `a` is a float: defined for numeric `b`, a
`TypeError` (`Option.none`) otherwise. -/
def floatSub (f : PyFloat) (b : PyVal) : Option PyFloat :=
  match b with
  | .float g => some (pfSub f g)
  | .int n => some (pfSub f (.fin (n : ℚ)))
  | .bool t => some (pfSub f (.fin (boolQ t)))
  | _ => Option.none

/-- The field loop of `equal` (source lines 74-83): walk the zipped field
pairs; a float expected field rejects when `abs(a - b) > tol` (and raises
when the subtraction is undefined), every other field must be `==`. -/
def fieldsEq (tol : ℚ) : List (PyVal × PyVal) → Option Bool
  | [] => some true
  | (a, b) :: rest =>
    match a with
    | .float f =>
      match floatSub f b with
      | Option.none => Option.none
      | some d =>
        if pyFloatGtQ (pyFloatAbs d) tol then some false else fieldsEq tol rest
    | _ => if pyEq a b then fieldsEq tol rest else some false

/-- The `equal` predicate of `assertDataFrameEqual` (source lines 69-84):
length mismatch is unequal, `x == y` short-circuits to equal, otherwise the
field loop runs.  `sameObj` models CPython's identity shortcut inside
`x == y` (the same tuple object always compares equal to itself, even when
it contains NaN); the RDD pipeline compares independently deserialized
records, so it always uses `sameObj := false`. -/
def equal (tol : ℚ) (sameObj : Bool) (x y : List PyVal) : Option Bool :=
  if x.length ≠ y.length then some false
  else if sameObj || pyEqL x y then some true
  else fieldsEq tol (x.zip y)

/-- A field of a schema descriptor: a name and the name of its Spark SQL
data type.  Only equality of descriptors matters to the comparator. -/
structure StructField where
  name : String
  dataType : String
deriving DecidableEq

/-- A schema descriptor (`DataFrame.schema`): the ordered field list. -/
abbrev Schema := List StructField

/-- A DataFrame as the comparator sees it: its schema descriptor and its
(engine-ordered) list of records, each record the field tuple of a `Row`. -/
structure DataFrame where
  schema : Schema
  rows : List (List PyVal)

/-- Cache/unpersist events on the two input datasets, in the order the
routine performs them. -/
inductive Ev where
  | cacheE : Ev
  | cacheR : Ev
  | unpersistE : Ev
  | unpersistR : Ev
deriving DecidableEq

/-- Outcome of `assertDataFrameEqual`: success, the schema-mismatch
assertion failure, the row-mismatch assertion failure carrying the reported
pairs, or a `TypeError` escaping from `equal`. -/
inductive Outcome where
  | ok : Outcome
  | schemaMismatch : Outcome
  | rowMismatch : List (Nat × (List PyVal × List PyVal)) → Outcome
  | typeError : Outcome

/-- Whether an outcome is the success outcome. -/
def Outcome.isOk : Outcome → Bool
  | .ok => true
  | _ => false

/-- `rdd.zipWithIndex()`: pair each element with its position, starting
from `n`. -/
def zipWithIndexFrom (n : Nat) : List α → List (α × Nat)
  | [] => []
  | x :: xs => (x, n) :: zipWithIndexFrom (n + 1) xs

/-- The `zipWithIndex` helper of the source: `rdd.zipWithIndex()` followed
by the swap `map(lambda x: (x[1], x[0]))`, producing `(idx, data)`. -/
def zipWithIndex (xs : List α) : List (Nat × α) :=
  (zipWithIndexFrom 0 xs).map (fun p => (p.2, p.1))

/-- `(idx, data)` pairs starting from index `n`; the normal form used in
proofs about `zipWithIndex`. -/
def indexedFrom (n : Nat) : List α → List (Nat × α)
  | [] => []
  | x :: xs => (n, x) :: indexedFrom (n + 1) xs

/-- `expectedIndexed.join(resultIndexed)`: the inner join of two pair RDDs
on their keys.  Our keys (positions) are unique, so the first match found
by `lookup` is the only one. -/
def joinByKey (xs ys : List (Nat × α)) : List (Nat × (α × α)) :=
  xs.filterMap (fun p => Option.map (fun b => (p.1, (p.2, b))) (List.lookup p.1 ys))

/-- `joinedRDD` of the source: expected and result rows joined by position. -/
def joinedPairs (E R : DataFrame) : List (Nat × (List PyVal × List PyVal)) :=
  joinByKey (zipWithIndex E.rows) (zipWithIndex R.rows)

/-- `unequalRDD.take(10)` with `n` as the remaining budget: Spark evaluates
the filtered RDD incrementally, so scanning stops as soon as the budget is
exhausted (later elements are never evaluated) and an exception raised by
`equal` aborts the whole job (`Except.error`). -/
def takeUnequal (tol : ℚ) : Nat → List (Nat × (List PyVal × List PyVal)) →
    Except Unit (List (Nat × (List PyVal × List PyVal)))
  | _, [] => Except.ok []
  | 0, _ :: _ => Except.ok []
  | n + 1, p :: rest =>
    match equal tol false p.2.1 p.2.2 with
    | Option.none => Except.error ()
    | some true => takeUnequal tol (n + 1) rest
    | some false =>
      match takeUnequal tol n rest with
      | Except.error e => Except.error e
      | Except.ok l => Except.ok (p :: l)

/-- `differentRows` of the source: the first at-most-10 joined pairs that
fail `equal`. -/
def differentRows (E R : DataFrame) (tol : ℚ) :
    Except Unit (List (Nat × (List PyVal × List PyVal))) :=
  takeUnequal tol 10 (joinedPairs E R)

/-- `assertDataFrameEqual(expected, result, tol)`: compare the schema
descriptors first; then, under `try`/`finally`, cache both RDDs, join the
indexed rows, collect up to 10 unequal pairs and assert the collection is
empty; the `finally` block unpersists both cached RDDs on every exit from
the `try` block.  Returns the outcome and the cache/unpersist event trace. -/
def assertDataFrameEqual (expected result : DataFrame) (tol : ℚ) : Outcome × List Ev :=
  if expected.schema = result.schema then
    match differentRows expected result tol with
    | Except.error _ => (Outcome.typeError, [Ev.cacheE, Ev.cacheR, Ev.unpersistE, Ev.unpersistR])
    | Except.ok [] => (Outcome.ok, [Ev.cacheE, Ev.cacheR, Ev.unpersistE, Ev.unpersistR])
    | Except.ok (p :: l) =>
      (Outcome.rowMismatch (p :: l), [Ev.cacheE, Ev.cacheR, Ev.unpersistE, Ev.unpersistR])
  else (Outcome.schemaMismatch, [])

/-- Whether a value is a Python float (`isinstance(a, float)`). -/
def isFloatV : PyVal → Bool
  | .float _ => true
  | _ => false

/-- Modelled from the spec: per-field acceptance as the specification words
it — "if the expected field is a floating-point number, accept if
`|expected − actual| ≤ t`, else require exact equality".  Stated for
comparison against `codeFieldAcceptB`, the acceptance condition read off
the code; the two differ exactly when the expected field is NaN. -/
def specFieldAcceptB (tol : ℚ) (a b : PyVal) : Bool :=
  match a with
  | .float f =>
    match floatSub f b with
    | some d => pyFloatLeQ (pyFloatAbs d) tol
    | Option.none => false
  | _ => pyEq a b

/-- A field never rejects when compared against itself by the loop: it is
a (top-level) float, or it is Python-equal to itself (which rules out NaN
nested inside a non-float field). -/
def selfOkField (a : PyVal) : Bool :=
  match a with
  | .float _ => true
  | _ => pyEq a a

/-- The length of the collected mismatch report, `Option.none` when the
collection raised. -/
def collectedLen (E R : DataFrame) (tol : ℚ) : Option Nat :=
  match differentRows E R tol with
  | Except.ok l => some l.length
  | Except.error _ => Option.none

/-- A 12-row dataset of distinct integers, used to exercise the 10-row cap. -/
def dfTwelveE : DataFrame :=
  ⟨[⟨"i", "int"⟩], (List.range 12).map (fun k => [PyVal.int (k : ℤ)])⟩

/-- A 12-row dataset differing from `dfTwelveE` in every row. -/
def dfTwelveR : DataFrame :=
  ⟨[⟨"i", "int"⟩], (List.range 12).map (fun k => [PyVal.int ((k : ℤ) + 100)])⟩

/-- Acceptance of a single field pair by the field loop, read off the code:
a float expected field is accepted iff the subtraction is defined and
`abs(a - b) > tol` is `False` (so a NaN expected value is always accepted);
any other field must be `==`. -/
def codeFieldAcceptB (tol : ℚ) (a b : PyVal) : Bool :=
  match a with
  | .float f =>
    match floatSub f b with
    | some d => !pyFloatGtQ (pyFloatAbs d) tol
    | Option.none => false
  | _ => pyEq a b

/-- Per-field precondition for the loop not to raise: a float expected
field needs a numeric actual field. -/
def needsOk (p : PyVal × PyVal) : Bool :=
  match p.1 with
  | .float _ => isNumericV p.2
  | _ => true

theorem pyEqL_length : ∀ x y : List PyVal, pyEqL x y = true → x.length = y.length := by
  intro x
  induction x with
  | nil =>
    intro y h
    cases y with
    | nil => rfl
    | cons b ys => simp [pyEqL] at h
  | cons a xs ih =>
    intro y h
    cases y with
    | nil => simp [pyEqL] at h
    | cons b ys =>
      simp only [pyEqL, Bool.and_eq_true] at h
      simp [List.length_cons, ih ys h.2]

theorem pyEqL_zip : ∀ x y : List PyVal, pyEqL x y = true → ∀ p ∈ x.zip y, pyEq p.1 p.2 = true := by
  intro x
  induction x with
  | nil =>
    intro y _ p hp
    simp [List.zip] at hp
  | cons a xs ih =>
    intro y h p hp
    cases y with
    | nil => simp [List.zip] at hp
    | cons b ys =>
      simp only [pyEqL, Bool.and_eq_true] at h
      rcases List.mem_cons.mp hp with hhead | htail
      · rw [hhead]; exact h.1
      · exact ih ys h.2 p htail

theorem pyEq_float_sub (f : PyFloat) (b : PyVal) (h : pyEq (.float f) b = true) :
    ∃ q : ℚ, f = .fin q ∧ floatSub f b = some (.fin 0) := by
  cases f with
  | nan =>
    exfalso
    cases b with
    | int m => simp [pyEq] at h
    | float g => cases g <;> simp [pyEq] at h
    | bool t => simp [pyEq] at h
    | str s => simp [pyEq] at h
    | noneV => simp [pyEq] at h
    | list l => simp [pyEq] at h
    | row l => simp [pyEq] at h
  | fin q =>
    cases b with
    | int m =>
      simp only [pyEq, decide_eq_true_eq] at h
      exact ⟨q, rfl, by simp [floatSub, pfSub, h]⟩
    | float g =>
      cases g with
      | nan => simp [pyEq] at h
      | fin c =>
        simp only [pyEq, decide_eq_true_eq] at h
        exact ⟨q, rfl, by simp [floatSub, pfSub, h]⟩
    | bool t =>
      simp only [pyEq, decide_eq_true_eq] at h
      exact ⟨q, rfl, by simp [floatSub, pfSub, h]⟩
    | str s => simp [pyEq] at h
    | noneV => simp [pyEq] at h
    | list l => simp [pyEq] at h
    | row l => simp [pyEq] at h

theorem pyEq_float_numeric (f : PyFloat) (b : PyVal) (h : pyEq (.float f) b = true) :
    isNumericV b = true := by
  obtain ⟨q, _, hsub⟩ := pyEq_float_sub f b h
  cases b <;> simp [isNumericV, floatSub] at hsub ⊢

theorem floatSub_of_numeric (f : PyFloat) (b : PyVal) (h : isNumericV b = true) :
    ∃ d, floatSub f b = some d := by
  cases b <;> simp [isNumericV] at h <;> simp [floatSub]

theorem codeFieldAcceptB_of_pyEq (tol : ℚ) (ht : 0 ≤ tol) (a b : PyVal)
    (h : pyEq a b = true) : codeFieldAcceptB tol a b = true := by
  cases a with
  | float f =>
    obtain ⟨q, hq, hsub⟩ := pyEq_float_sub f b h
    simp [codeFieldAcceptB, hsub, pyFloatAbs, pyFloatGtQ, not_lt.mpr ht]
  | int n => simpa [codeFieldAcceptB] using h
  | str s => simpa [codeFieldAcceptB] using h
  | bool t => simpa [codeFieldAcceptB] using h
  | noneV => simpa [codeFieldAcceptB] using h
  | list l => simpa [codeFieldAcceptB] using h
  | row l => simpa [codeFieldAcceptB] using h

theorem fieldsEq_cons_nonfloat (tol : ℚ) (a b : PyVal) (rest : List (PyVal × PyVal))
    (h : isFloatV a = false) :
    fieldsEq tol ((a, b) :: rest) = if pyEq a b then fieldsEq tol rest else some false := by
  cases a with
  | float f => simp [isFloatV] at h
  | int n => rfl
  | str s => rfl
  | bool t => rfl
  | noneV => rfl
  | list l => rfl
  | row l => rfl

theorem codeFieldAcceptB_nonfloat (tol : ℚ) (a b : PyVal) (h : isFloatV a = false) :
    codeFieldAcceptB tol a b = pyEq a b := by
  cases a with
  | float f => simp [isFloatV] at h
  | int n => rfl
  | str s => rfl
  | bool t => rfl
  | noneV => rfl
  | list l => rfl
  | row l => rfl

theorem needsOk_nonfloat (a b : PyVal) (h : isFloatV a = false) : needsOk (a, b) = true := by
  cases a with
  | float f => simp [isFloatV] at h
  | int n => rfl
  | str s => rfl
  | bool t => rfl
  | noneV => rfl
  | list l => rfl
  | row l => rfl

theorem isFloatV_eq (a : PyVal) (h : isFloatV a = true) : ∃ f, a = .float f := by
  cases a <;> simp [isFloatV] at h ⊢

theorem fieldsEq_true_iff (tol : ℚ) :
    ∀ l : List (PyVal × PyVal),
      fieldsEq tol l = some true ↔ ∀ p ∈ l, codeFieldAcceptB tol p.1 p.2 = true := by
  intro l
  induction l with
  | nil => simp [fieldsEq]
  | cons p rest ih =>
    obtain ⟨a, b⟩ := p
    by_cases hfa : isFloatV a = true
    · obtain ⟨f, rfl⟩ := isFloatV_eq a hfa
      cases hsub : floatSub f b with
      | none => simp [fieldsEq, hsub, codeFieldAcceptB]
      | some d =>
        by_cases hgt : pyFloatGtQ (pyFloatAbs d) tol = true
        · simp [fieldsEq, hsub, hgt, codeFieldAcceptB]
        · simp only [Bool.not_eq_true] at hgt
          simp [fieldsEq, hsub, hgt, codeFieldAcceptB, ih]
    · simp only [Bool.not_eq_true] at hfa
      rw [fieldsEq_cons_nonfloat tol a b rest hfa]
      by_cases heq : pyEq a b = true
      · simp [heq, codeFieldAcceptB_nonfloat tol a b hfa, ih]
      · simp only [Bool.not_eq_true] at heq
        simp [heq, codeFieldAcceptB_nonfloat tol a b hfa]

theorem fieldsEq_total (tol : ℚ) :
    ∀ l : List (PyVal × PyVal), (∀ p ∈ l, needsOk p = true) → ∃ b, fieldsEq tol l = some b := by
  intro l
  induction l with
  | nil => exact fun _ => ⟨true, rfl⟩
  | cons p rest ih =>
    intro h
    obtain ⟨a, b⟩ := p
    have hrest : ∀ q ∈ rest, needsOk q = true := fun q hq => h q (List.mem_cons_of_mem _ hq)
    by_cases hfa : isFloatV a = true
    · obtain ⟨f, rfl⟩ := isFloatV_eq a hfa
      have hnum : isNumericV b = true := by
        have := h (.float f, b) (List.mem_cons_self _ _)
        simpa [needsOk] using this
      obtain ⟨d, hsub⟩ := floatSub_of_numeric f b hnum
      by_cases hgt : pyFloatGtQ (pyFloatAbs d) tol = true
      · exact ⟨false, by simp [fieldsEq, hsub, hgt]⟩
      · obtain ⟨c, hc⟩ := ih hrest
        simp only [Bool.not_eq_true] at hgt
        exact ⟨c, by simp [fieldsEq, hsub, hgt, hc]⟩
    · simp only [Bool.not_eq_true] at hfa
      by_cases heq : pyEq a b = true
      · obtain ⟨c, hc⟩ := ih hrest
        exact ⟨c, by rw [fieldsEq_cons_nonfloat tol a b rest hfa]; simp [heq, hc]⟩
      · exact ⟨false, by rw [fieldsEq_cons_nonfloat tol a b rest hfa]; simp [heq]⟩

theorem floatSub_none_of_nonnumeric (f : PyFloat) (b : PyVal) (hb : isNumericV b = false) :
    floatSub f b = Option.none := by
  cases b <;> simp [isNumericV] at hb <;> rfl

theorem pyEq_float_nonnumeric (f : PyFloat) (b : PyVal) (hb : isNumericV b = false) :
    pyEq (PyVal.float f) b = false := by
  cases b with
  | float g => simp [isNumericV] at hb
  | int n => simp [isNumericV] at hb
  | bool t => simp [isNumericV] at hb
  | str s => cases f <;> rfl
  | noneV => cases f <;> rfl
  | list l => cases f <;> rfl
  | row l => cases f <;> rfl

theorem codeFieldAcceptB_float_elim (tol : ℚ) (f : PyFloat) (c : PyVal)
    (h : codeFieldAcceptB tol (PyVal.float f) c = true) :
    ∃ d, floatSub f c = some d ∧ pyFloatGtQ (pyFloatAbs d) tol = false := by
  cases hsub : floatSub f c with
  | none => simp [codeFieldAcceptB, hsub] at h
  | some d =>
    refine ⟨d, rfl, ?_⟩
    simpa [codeFieldAcceptB, hsub] using h

theorem fieldsEq_raises (tol : ℚ) :
    ∀ (pre : List (PyVal × PyVal)) (f : PyFloat) (b : PyVal) (rest : List (PyVal × PyVal)),
      (∀ u ∈ pre, codeFieldAcceptB tol u.1 u.2 = true) → isNumericV b = false →
      fieldsEq tol (pre ++ (PyVal.float f, b) :: rest) = Option.none := by
  intro pre
  induction pre with
  | nil =>
    intro f b rest _ hb
    simp [fieldsEq, floatSub_none_of_nonnumeric f b hb]
  | cons q pre' ih =>
    intro f b rest hacc hb
    obtain ⟨a, c⟩ := q
    have hhead := hacc (a, c) (List.mem_cons_self _ _)
    have hrest : ∀ u ∈ pre', codeFieldAcceptB tol u.1 u.2 = true :=
      fun u hu => hacc u (List.mem_cons_of_mem _ hu)
    by_cases hfa : isFloatV a = true
    · obtain ⟨g, rfl⟩ := isFloatV_eq a hfa
      obtain ⟨d, hsub, hgt⟩ := codeFieldAcceptB_float_elim tol g c hhead
      simp only [List.cons_append]
      simp [fieldsEq, hsub, hgt, ih f b rest hrest hb]
    · simp only [Bool.not_eq_true] at hfa
      rw [List.cons_append, fieldsEq_cons_nonfloat tol a c _ hfa]
      rw [codeFieldAcceptB_nonfloat tol a c hfa] at hhead
      simp [hhead, ih f b rest hrest hb]

theorem fieldsEq_total_reached (tol : ℚ) :
    ∀ l : List (PyVal × PyVal),
      (∀ pre q suf, l = pre ++ q :: suf →
        (∀ u ∈ pre, codeFieldAcceptB tol u.1 u.2 = true) → needsOk q = true) →
      ∃ c, fieldsEq tol l = some c := by
  intro l
  induction l with
  | nil => exact fun _ => ⟨true, rfl⟩
  | cons p rest ih =>
    intro h
    obtain ⟨a, b⟩ := p
    have hhead : needsOk (a, b) = true :=
      h [] (a, b) rest rfl (fun u hu => absurd hu (List.not_mem_nil u))
    by_cases hfa : isFloatV a = true
    · obtain ⟨f, rfl⟩ := isFloatV_eq a hfa
      have hnum : isNumericV b = true := by simpa [needsOk] using hhead
      obtain ⟨d, hsub⟩ := floatSub_of_numeric f b hnum
      by_cases hgt : pyFloatGtQ (pyFloatAbs d) tol = true
      · exact ⟨false, by simp [fieldsEq, hsub, hgt]⟩
      · simp only [Bool.not_eq_true] at hgt
        have haccept : codeFieldAcceptB tol (PyVal.float f) b = true := by
          simp [codeFieldAcceptB, hsub, hgt]
        have hrest : ∀ pre q suf, rest = pre ++ q :: suf →
            (∀ u ∈ pre, codeFieldAcceptB tol u.1 u.2 = true) → needsOk q = true := by
          intro pre q suf hdec hacc
          refine h ((PyVal.float f, b) :: pre) q suf (by rw [hdec, List.cons_append]) ?_
          intro u hu
          rcases List.mem_cons.mp hu with h1 | h2
          · rw [h1]; exact haccept
          · exact hacc u h2
        obtain ⟨c, hc⟩ := ih hrest
        exact ⟨c, by simp [fieldsEq, hsub, hgt, hc]⟩
    · simp only [Bool.not_eq_true] at hfa
      by_cases heq : pyEq a b = true
      · have haccept : codeFieldAcceptB tol a b = true := by
          rw [codeFieldAcceptB_nonfloat tol a b hfa]
          exact heq
        have hrest : ∀ pre q suf, rest = pre ++ q :: suf →
            (∀ u ∈ pre, codeFieldAcceptB tol u.1 u.2 = true) → needsOk q = true := by
          intro pre q suf hdec hacc
          refine h ((a, b) :: pre) q suf (by rw [hdec, List.cons_append]) ?_
          intro u hu
          rcases List.mem_cons.mp hu with h1 | h2
          · rw [h1]; exact haccept
          · exact hacc u h2
        obtain ⟨c, hc⟩ := ih hrest
        exact ⟨c, by rw [fieldsEq_cons_nonfloat tol a b rest hfa]; simp [heq, hc]⟩
      · exact ⟨false, by rw [fieldsEq_cons_nonfloat tol a b rest hfa]; simp [heq]⟩

theorem equal_of_pyEqL (tol : ℚ) (s : Bool) (x y : List PyVal) (h : pyEqL x y = true) :
    equal tol s x y = some true := by
  have hl := pyEqL_length x y h
  simp [equal, hl, h]

theorem equal_of_length_ne (tol : ℚ) (s : Bool) (x y : List PyVal)
    (h : x.length ≠ y.length) : equal tol s x y = some false := by
  simp [equal, h]

theorem equal_true_iff (tol : ℚ) (ht : 0 ≤ tol) (x y : List PyVal) :
    equal tol false x y = some true ↔
      (x.length = y.length ∧ ∀ p ∈ x.zip y, codeFieldAcceptB tol p.1 p.2 = true) := by
  by_cases hl : x.length = y.length
  · by_cases hq : pyEqL x y = true
    · simp only [equal_of_pyEqL tol false x y hq, true_iff]
      exact ⟨hl, fun p hp => codeFieldAcceptB_of_pyEq tol ht p.1 p.2 (pyEqL_zip x y hq p hp)⟩
    · simp only [Bool.not_eq_true] at hq
      rw [equal]
      simp [hl, hq, fieldsEq_true_iff]
  · rw [equal_of_length_ne tol false x y hl]
    simp [hl]

theorem zipWithIndexFrom_map_swap :
    ∀ (xs : List α) (n : Nat),
      (zipWithIndexFrom n xs).map (fun p => (p.2, p.1)) = indexedFrom n xs := by
  intro xs
  induction xs with
  | nil => intro n; rfl
  | cons x xs ih => intro n; simp [zipWithIndexFrom, indexedFrom, ih]

theorem zipWithIndex_eq_indexedFrom (xs : List α) : zipWithIndex xs = indexedFrom 0 xs :=
  zipWithIndexFrom_map_swap xs 0

theorem lookup_cons_ne (k m : Nat) (r : α) (ys : List (Nat × α)) (h : (k == m) = false) :
    List.lookup k ((m, r) :: ys) = List.lookup k ys := by
  simp [List.lookup, h]

theorem lookup_cons_self (k : Nat) (r : α) (ys : List (Nat × α)) :
    List.lookup k ((k, r) :: ys) = some r := by
  simp [List.lookup]

theorem joinByKey_nil_right (xs : List (Nat × α)) : joinByKey xs ([] : List (Nat × α)) = [] := by
  induction xs with
  | nil => rfl
  | cons p rest _ => simp [joinByKey, List.lookup, List.filterMap_cons]

theorem filterMap_lookup_skip (es : List α) :
    ∀ (n m : Nat) (r : α) (ys : List (Nat × α)), m < n →
      (indexedFrom n es).filterMap
          (fun p => Option.map (fun b => (p.1, (p.2, b))) (List.lookup p.1 ((m, r) :: ys)))
        = (indexedFrom n es).filterMap
            (fun p => Option.map (fun b => (p.1, (p.2, b))) (List.lookup p.1 ys)) := by
  induction es with
  | nil => intros; rfl
  | cons e es ih =>
    intro n m r ys hmn
    have hne : (n == m) = false := by
      simp [Nat.ne_of_gt hmn]
    simp only [indexedFrom, List.filterMap_cons, lookup_cons_ne n m r ys hne]
    rw [ih (n + 1) m r ys (Nat.lt_succ_of_lt hmn)]

theorem joinByKey_indexedFrom :
    ∀ (es rs : List α) (n : Nat),
      joinByKey (indexedFrom n es) (indexedFrom n rs) = indexedFrom n (es.zip rs) := by
  intro es
  induction es with
  | nil => intros; rfl
  | cons e es ih =>
    intro rs n
    cases rs with
    | nil => simp [indexedFrom, joinByKey_nil_right]
    | cons r rs =>
      show (indexedFrom n (e :: es)).filterMap
          (fun p => Option.map (fun b => (p.1, (p.2, b)))
            (List.lookup p.1 ((n, r) :: indexedFrom (n + 1) rs)))
        = indexedFrom n ((e :: es).zip (r :: rs))
      simp only [indexedFrom, List.filterMap_cons, lookup_cons_self, Option.map_some',
        List.zip_cons_cons]
      rw [filterMap_lookup_skip es (n + 1) n r _ (Nat.lt_succ_self n)]
      exact congrArg (List.cons _) (ih rs (n + 1))

theorem joinedPairs_eq_zip (E R : DataFrame) :
    joinedPairs E R = indexedFrom 0 (E.rows.zip R.rows) := by
  rw [joinedPairs, zipWithIndex_eq_indexedFrom, zipWithIndex_eq_indexedFrom,
    joinByKey_indexedFrom]

theorem snd_mem_of_mem_indexedFrom :
    ∀ (l : List α) (n : Nat) (p : Nat × α), p ∈ indexedFrom n l → p.2 ∈ l := by
  intro l
  induction l with
  | nil => intro n p hp; simp [indexedFrom] at hp
  | cons x xs ih =>
    intro n p hp
    rcases List.mem_cons.mp hp with hhead | htail
    · rw [hhead]; exact List.mem_cons_self _ _
    · exact List.mem_cons_of_mem _ (ih (n + 1) p htail)

theorem mem_indexedFrom_intro :
    ∀ (l : List α) (n : Nat) (x : α), x ∈ l → ∃ k, (k, x) ∈ indexedFrom n l := by
  intro l
  induction l with
  | nil => intro n x hx; simp at hx
  | cons y ys ih =>
    intro n x hx
    rcases List.mem_cons.mp hx with hhead | htail
    · exact ⟨n, by rw [hhead]; exact List.mem_cons_self _ _⟩
    · obtain ⟨k, hk⟩ := ih (n + 1) x htail
      exact ⟨k, List.mem_cons_of_mem _ hk⟩

theorem zip_self_mem : ∀ (l : List α) (p : α × α), p ∈ l.zip l → p.1 = p.2 ∧ p.1 ∈ l := by
  intro l
  induction l with
  | nil => intro p hp; simp at hp
  | cons x xs ih =>
    intro p hp
    rw [List.zip_cons_cons] at hp
    rcases List.mem_cons.mp hp with hhead | htail
    · rw [hhead]; exact ⟨rfl, List.mem_cons_self _ _⟩
    · obtain ⟨h1, h2⟩ := ih p htail
      exact ⟨h1, List.mem_cons_of_mem _ h2⟩

theorem zip_append_right_self : ∀ (xs s : List α), xs.zip (xs ++ s) = xs.zip xs := by
  intro xs s
  induction xs with
  | nil => rfl
  | cons x xs ih => simp [List.zip_cons_cons, ih]

theorem zip_append_left_self : ∀ (xs s : List α), (xs ++ s).zip xs = xs.zip xs := by
  intro xs s
  induction xs with
  | nil => cases s <;> rfl
  | cons x xs ih => simp [List.zip_cons_cons, ih]

theorem takeUnequal_length (tol : ℚ) :
    ∀ (l : List (Nat × (List PyVal × List PyVal))) (n : Nat) (out : List _),
      takeUnequal tol n l = Except.ok out → out.length ≤ n := by
  intro l
  induction l with
  | nil =>
    intro n out h
    cases n <;> · rw [takeUnequal] at h
                  cases h
                  simp
  | cons p rest ih =>
    intro n out h
    cases n with
    | zero =>
      rw [takeUnequal] at h
      cases h
      simp
    | succ m =>
      rw [takeUnequal] at h
      cases hequal : equal tol false p.2.1 p.2.2 with
      | none => rw [hequal] at h; cases h
      | some b =>
        rw [hequal] at h
        cases b with
        | true => exact ih (m + 1) out h
        | false =>
          cases hrec : takeUnequal tol m rest with
          | error e => rw [hrec] at h; cases h
          | ok l' =>
            rw [hrec] at h
            cases h
            simpa [List.length_cons] using Nat.succ_le_succ (ih m l' hrec)

theorem takeUnequal_char (tol : ℚ) :
    ∀ (l : List (Nat × (List PyVal × List PyVal))) (n : Nat),
      (∀ p ∈ l, equal tol false p.2.1 p.2.2 ≠ Option.none) →
      takeUnequal tol n l =
        Except.ok ((l.filter (fun p => equal tol false p.2.1 p.2.2 == some false)).take n) := by
  intro l
  induction l with
  | nil => intro n _; cases n <;> rfl
  | cons p rest ih =>
    intro n h
    have hp := h p (List.mem_cons_self _ _)
    have hrest : ∀ q ∈ rest, equal tol false q.2.1 q.2.2 ≠ Option.none :=
      fun q hq => h q (List.mem_cons_of_mem _ hq)
    cases hequal : equal tol false p.2.1 p.2.2 with
    | none => exact absurd hequal hp
    | some b =>
      cases n with
      | zero => rw [takeUnequal]; simp
      | succ m =>
        rw [takeUnequal, hequal]
        cases b with
        | true =>
          rw [ih (m + 1) hrest]
          simp [List.filter_cons, hequal]
        | false =>
          rw [ih m hrest]
          simp [List.filter_cons, hequal]

theorem takeUnequal_all_true (tol : ℚ) (n : Nat)
    (l : List (Nat × (List PyVal × List PyVal)))
    (h : ∀ p ∈ l, equal tol false p.2.1 p.2.2 = some true) :
    takeUnequal tol n l = Except.ok [] := by
  rw [takeUnequal_char tol l n (fun p hp => by rw [h p hp]; exact fun hc => Option.noConfusion hc)]
  have hfilter : l.filter (fun p => equal tol false p.2.1 p.2.2 == some false) = [] := by
    rw [List.filter_eq_nil_iff]
    intro p hp
    simp [h p hp]
  rw [hfilter]
  simp

theorem equal_eq_fieldsEq (tol : ℚ) (x y : List PyVal)
    (hl : x.length = y.length) (hq : pyEqL x y = false) :
    equal tol false x y = fieldsEq tol (x.zip y) := by
  rw [equal]
  simp [hl, hq]

theorem codeFieldAcceptB_self (tol : ℚ) (ht : 0 ≤ tol) (a : PyVal)
    (h : selfOkField a = true) : codeFieldAcceptB tol a a = true := by
  cases a with
  | float f =>
    cases f with
    | nan => simp [codeFieldAcceptB, floatSub, pfSub, pyFloatAbs, pyFloatGtQ]
    | fin q =>
      simp [codeFieldAcceptB, floatSub, pfSub, pyFloatAbs, pyFloatGtQ, sub_self,
        abs_zero, not_lt.mpr ht]
  | int n => simpa [selfOkField, codeFieldAcceptB] using h
  | str s => simpa [selfOkField, codeFieldAcceptB] using h
  | bool t => simpa [selfOkField, codeFieldAcceptB] using h
  | noneV => simpa [selfOkField, codeFieldAcceptB] using h
  | list l => simpa [selfOkField, codeFieldAcceptB] using h
  | row l => simpa [selfOkField, codeFieldAcceptB] using h

theorem equal_self (tol : ℚ) (ht : 0 ≤ tol) (x : List PyVal)
    (h : ∀ a ∈ x, selfOkField a = true) : equal tol false x x = some true := by
  by_cases hq : pyEqL x x = true
  · exact equal_of_pyEqL tol false x x hq
  · simp only [Bool.not_eq_true] at hq
    rw [equal_eq_fieldsEq tol x x rfl hq]
    apply (fieldsEq_true_iff tol _).mpr
    intro p hp
    obtain ⟨heq, hmem⟩ := zip_self_mem x p hp
    rw [← heq]
    exact codeFieldAcceptB_self tol ht p.1 (h p.1 hmem)

theorem equal_delta (t e r : ℚ) (xi yi : List PyVal)
    (hrlen : xi.length = yi.length)
    (hfmem : (PyVal.float (PyFloat.fin e), PyVal.float (PyFloat.fin r)) ∈ xi.zip yi)
    (hfothers : ∀ q ∈ xi.zip yi,
      q ≠ (PyVal.float (PyFloat.fin e), PyVal.float (PyFloat.fin r)) → pyEq q.1 q.2 = true)
    (hne : e ≠ r) :
    equal t false xi yi = some (decide (|e - r| ≤ t)) := by
  have hq : pyEqL xi yi = false := by
    cases hq' : pyEqL xi yi with
    | false => rfl
    | true =>
      exfalso
      have := pyEqL_zip xi yi hq' _ hfmem
      simp only [pyEq, decide_eq_true_eq] at this
      exact hne this
  rw [equal_eq_fieldsEq t xi yi hrlen hq]
  by_cases hle : |e - r| ≤ t
  · have ht0 : 0 ≤ t := le_trans (abs_nonneg _) hle
    rw [decide_eq_true hle]
    apply (fieldsEq_true_iff t _).mpr
    intro p hp
    by_cases hps : p = (PyVal.float (PyFloat.fin e), PyVal.float (PyFloat.fin r))
    · rw [hps]
      simp [codeFieldAcceptB, floatSub, pfSub, pyFloatAbs, pyFloatGtQ, not_lt.mpr hle]
    · exact codeFieldAcceptB_of_pyEq t ht0 p.1 p.2 (hfothers p hp hps)
  · have htotal : ∀ p ∈ xi.zip yi, needsOk p = true := by
      intro p hp
      obtain ⟨a, b⟩ := p
      by_cases hps : (a, b) = (PyVal.float (PyFloat.fin e), PyVal.float (PyFloat.fin r))
      · rw [hps]
        simp [needsOk, isNumericV]
      · have hpe := hfothers (a, b) hp hps
        cases a with
        | float f =>
          simp only [needsOk]
          exact pyEq_float_numeric f b hpe
        | int n => rfl
        | str s => rfl
        | bool t' => rfl
        | noneV => rfl
        | list l => rfl
        | row l => rfl
    obtain ⟨v, hv⟩ := fieldsEq_total t _ htotal
    rw [decide_eq_false hle]
    cases v with
    | true =>
      exfalso
      have hacc := (fieldsEq_true_iff t (xi.zip yi)).mp hv _ hfmem
      simp only [codeFieldAcceptB, floatSub, pfSub, pyFloatAbs, pyFloatGtQ,
        Bool.not_eq_true', decide_eq_false_iff_not, not_lt] at hacc
      exact hle hacc
    | false => exact hv

theorem Outcome_isOk_iff (o : Outcome) : o.isOk = true ↔ o = Outcome.ok := by
  cases o <;> simp [Outcome.isOk]

theorem assertDFE_schema_ne (E R : DataFrame) (tol : ℚ) (h : E.schema ≠ R.schema) :
    assertDataFrameEqual E R tol = (Outcome.schemaMismatch, []) := by
  simp [assertDataFrameEqual, h]

theorem assertDFE_ok_iff (E R : DataFrame) (tol : ℚ) (hs : E.schema = R.schema) :
    (assertDataFrameEqual E R tol).1 = Outcome.ok ↔ differentRows E R tol = Except.ok [] := by
  simp only [assertDataFrameEqual, if_pos hs]
  cases h : differentRows E R tol with
  | error e => simp
  | ok l =>
    cases l with
    | nil => simp
    | cons p rest => simp

/-- C1 (counterexample): the claim's per-field condition — a float expected
field is accepted iff `|expected − actual| ≤ tol` — mischaracterizes the
code on a NaN expected field: `equal` accepts the pair (the rejection test
`abs(nan - b) > tol` is `False`), yet `|nan − b| ≤ tol` is also `False`,
so the claimed iff fails at this input. -/
theorem equal_spec_iff_fails_on_nan :
    ¬ ((equal 0 false [PyVal.float PyFloat.nan] [PyVal.int 0] = some true) ↔
      (([PyVal.float PyFloat.nan] : List PyVal).length = ([PyVal.int 0] : List PyVal).length ∧
        ∀ p ∈ ([PyVal.float PyFloat.nan] : List PyVal).zip [PyVal.int 0],
          specFieldAcceptB 0 p.1 p.2 = true)) := by
  decide

/-- C1 (amended): for a nonnegative tolerance, a joined pair with records
of different lengths is unequal; and a pair is accepted exactly when the
lengths match and every field in positional order passes the code's check:
a float expected field is rejected only when `|expected − actual| > tol`
(so a NaN expected field is always accepted), and every other field
(string, boolean, integer, nested structure) must be exactly `==`,
regardless of the tolerance value. -/
theorem equal_fieldwise_char (tol : ℚ) (ht : 0 ≤ tol) (x y : List PyVal) :
    (x.length ≠ y.length → equal tol false x y = some false)
    ∧ (equal tol false x y = some true ↔
        (x.length = y.length ∧ ∀ p ∈ x.zip y, codeFieldAcceptB tol p.1 p.2 = true)) :=
  ⟨fun h => equal_of_length_ne tol false x y h, equal_true_iff tol ht x y⟩

/-- Witness for `equal_fieldwise_char` at tolerance `0` and the records
`["a"]` and `["b"]`. -/
theorem equal_fieldwise_char_witness :
    (0 : ℚ) ≤ 0 ∧
      ((([PyVal.str "a"] : List PyVal).length ≠ ([PyVal.str "b"] : List PyVal).length →
          equal 0 false [PyVal.str "a"] [PyVal.str "b"] = some false)
        ∧ (equal 0 false [PyVal.str "a"] [PyVal.str "b"] = some true ↔
            (([PyVal.str "a"] : List PyVal).length = ([PyVal.str "b"] : List PyVal).length ∧
              ∀ p ∈ ([PyVal.str "a"] : List PyVal).zip [PyVal.str "b"],
                codeFieldAcceptB 0 p.1 p.2 = true))) :=
  ⟨by decide, equal_fieldwise_char 0 (by decide) [PyVal.str "a"] [PyVal.str "b"]⟩

/-- C2: when the two schema descriptors differ, `assertDataFrameEqual`
fails immediately with the schema-mismatch outcome, for every tolerance
and whatever the row contents: nothing is cached (empty event trace), no
row-level comparison happens and no per-field report is produced. -/
theorem schema_mismatch_immediate (E R : DataFrame) (tol : ℚ) (h : E.schema ≠ R.schema) :
    assertDataFrameEqual E R tol = (Outcome.schemaMismatch, []) :=
  assertDFE_schema_ne E R tol h

/-- Witness for `schema_mismatch_immediate`: a `double` column against a
`string` column whose values coincide, at tolerance `1/2`. -/
theorem schema_mismatch_immediate_witness :
    (⟨[⟨"d", "double"⟩], [[PyVal.float (PyFloat.fin 1)]]⟩ : DataFrame).schema ≠
        (⟨[⟨"d", "string"⟩], [[PyVal.float (PyFloat.fin 1)]]⟩ : DataFrame).schema ∧
      assertDataFrameEqual ⟨[⟨"d", "double"⟩], [[PyVal.float (PyFloat.fin 1)]]⟩
          ⟨[⟨"d", "string"⟩], [[PyVal.float (PyFloat.fin 1)]]⟩ (1/2) =
        (Outcome.schemaMismatch, []) :=
  ⟨by decide, schema_mismatch_immediate _ _ _ (by decide)⟩

/-- C3: for datasets with identical schemas whose aligned contents differ
only in one floating-point field, by `|e − r|`, the assertion succeeds iff
the tolerance is at least `|e − r|` (and fails iff it is smaller). -/
theorem tolerance_threshold_iff (E R : DataFrame) (t e r : ℚ) (xi yi : List PyVal)
    (hs : E.schema = R.schema)
    (hlen : E.rows.length = R.rows.length)
    (hmem : (xi, yi) ∈ E.rows.zip R.rows)
    (hothers : ∀ p ∈ E.rows.zip R.rows, p ≠ (xi, yi) → pyEqL p.1 p.2 = true)
    (hrlen : xi.length = yi.length)
    (hfmem : (PyVal.float (PyFloat.fin e), PyVal.float (PyFloat.fin r)) ∈ xi.zip yi)
    (hfothers : ∀ q ∈ xi.zip yi,
      q ≠ (PyVal.float (PyFloat.fin e), PyVal.float (PyFloat.fin r)) → pyEq q.1 q.2 = true)
    (hne : e ≠ r) :
    ((assertDataFrameEqual E R t).1.isOk = true ↔ |e - r| ≤ t) := by
  have hdelta := equal_delta t e r xi yi hrlen hfmem hfothers hne
  rw [Outcome_isOk_iff, assertDFE_ok_iff E R t hs]
  by_cases hle : |e - r| ≤ t
  · have hall : ∀ p ∈ joinedPairs E R, equal t false p.2.1 p.2.2 = some true := by
      intro p hp
      rw [joinedPairs_eq_zip] at hp
      have hzp : p.2 ∈ E.rows.zip R.rows := snd_mem_of_mem_indexedFrom _ 0 p hp
      by_cases hps : p.2 = (xi, yi)
      · rw [(by rw [hps] : p.2.1 = xi), (by rw [hps] : p.2.2 = yi), hdelta,
          decide_eq_true hle]
      · exact equal_of_pyEqL t false p.2.1 p.2.2 (hothers p.2 hzp hps)
    simp [differentRows, takeUnequal_all_true t 10 _ hall, hle]
  · have htotal : ∀ p ∈ joinedPairs E R, equal t false p.2.1 p.2.2 ≠ Option.none := by
      intro p hp
      rw [joinedPairs_eq_zip] at hp
      have hzp : p.2 ∈ E.rows.zip R.rows := snd_mem_of_mem_indexedFrom _ 0 p hp
      by_cases hps : p.2 = (xi, yi)
      · rw [(by rw [hps] : p.2.1 = xi), (by rw [hps] : p.2.2 = yi), hdelta]
        exact fun hc => Option.noConfusion hc
      · rw [equal_of_pyEqL t false p.2.1 p.2.2 (hothers p.2 hzp hps)]
        exact fun hc => Option.noConfusion hc
    obtain ⟨k, hk⟩ := mem_indexedFrom_intro _ 0 (xi, yi) hmem
    have hkj : (k, (xi, yi)) ∈ joinedPairs E R := by
      rw [joinedPairs_eq_zip]; exact hk
    have hmemf : (k, (xi, yi)) ∈
        (joinedPairs E R).filter (fun p => equal t false p.2.1 p.2.2 == some false) := by
      rw [List.mem_filter]
      exact ⟨hkj, by simp [hdelta, decide_eq_false hle]⟩
    have htake : ((joinedPairs E R).filter
        (fun p => equal t false p.2.1 p.2.2 == some false)).take 10 ≠ [] := by
      intro hnil
      rcases List.take_eq_nil_iff.mp hnil with h10 | hfil
      · exact Nat.noConfusion h10
      · exact List.ne_nil_of_mem hmemf hfil
    rw [differentRows, takeUnequal_char t (joinedPairs E R) 10 htotal]
    simp only [hle, iff_false]
    intro hcontra
    exact htake (by injection hcontra)

/-- Witness for `tolerance_threshold_iff`: one-row datasets holding `1.0`
and `3.0` at tolerance `2`. -/
theorem tolerance_threshold_iff_witness :
    ((assertDataFrameEqual ⟨[⟨"d", "double"⟩], [[PyVal.float (PyFloat.fin 1)]]⟩
        ⟨[⟨"d", "double"⟩], [[PyVal.float (PyFloat.fin 3)]]⟩ 2).1.isOk = true ↔
      |(1 : ℚ) - 3| ≤ 2) :=
  tolerance_threshold_iff _ _ 2 1 3 [PyVal.float (PyFloat.fin 1)] [PyVal.float (PyFloat.fin 3)]
    rfl rfl (List.mem_singleton.mpr rfl)
    (fun p hp hne => absurd (List.mem_singleton.mp hp) hne)
    rfl (List.mem_singleton.mpr rfl)
    (fun q hq hne => absurd (List.mem_singleton.mp hq) hne)
    (by norm_num)

/-- C4: the collected mismatch report never exceeds 10 pairs, however many
joined pairs fail the predicate, and (schemas being equal, so that the row
comparison actually runs) the assertion succeeds iff the collected
sequence is empty. -/
theorem mismatch_report_cap (E R : DataFrame) (tol : ℚ) (hs : E.schema = R.schema) :
    (∀ l, differentRows E R tol = Except.ok l → l.length ≤ 10)
    ∧ ((assertDataFrameEqual E R tol).1 = Outcome.ok ↔ differentRows E R tol = Except.ok []) :=
  ⟨fun l h => takeUnequal_length tol _ 10 l h, assertDFE_ok_iff E R tol hs⟩

/-- Witness for `mismatch_report_cap` on 12-row datasets differing in every
row: exactly 10 pairs are collected. -/
theorem mismatch_report_cap_witness :
    ((∀ l, differentRows dfTwelveE dfTwelveR 0 = Except.ok l → l.length ≤ 10)
      ∧ ((assertDataFrameEqual dfTwelveE dfTwelveR 0).1 = Outcome.ok ↔
          differentRows dfTwelveE dfTwelveR 0 = Except.ok []))
    ∧ collectedLen dfTwelveE dfTwelveR 0 = some 10 :=
  ⟨mismatch_report_cap dfTwelveE dfTwelveR 0 rfl, by decide⟩

/-- C5 (counterexample): the claim promises success whenever one row list
is a positional prefix of the other (equal schemas), but a shared row
holding NaN inside a non-float field already fails the predicate: the
prefix datasets below produce a row mismatch, not success. -/
theorem shorter_side_drop_fails_on_nan :
    ((⟨[⟨"a", "array"⟩], [[PyVal.list [PyVal.float PyFloat.nan]], [PyVal.list []]]⟩ :
        DataFrame).rows =
      (⟨[⟨"a", "array"⟩], [[PyVal.list [PyVal.float PyFloat.nan]]]⟩ : DataFrame).rows ++
        [[PyVal.list []]])
    ∧ (⟨[⟨"a", "array"⟩], [[PyVal.list [PyVal.float PyFloat.nan]]]⟩ : DataFrame).schema =
      (⟨[⟨"a", "array"⟩], [[PyVal.list [PyVal.float PyFloat.nan]], [PyVal.list []]]⟩ :
        DataFrame).schema
    ∧ (assertDataFrameEqual ⟨[⟨"a", "array"⟩], [[PyVal.list [PyVal.float PyFloat.nan]]]⟩
        ⟨[⟨"a", "array"⟩], [[PyVal.list [PyVal.float PyFloat.nan]], [PyVal.list []]]⟩
        0).1.isOk = false :=
  ⟨rfl, rfl, by decide⟩

/-- C5 (amended): positions present in only one side of the join are
silently dropped and never reported: for equal schemas, when one row list
extends the other and every shared row is Python-self-equal (no NaN inside
its non-float fields — NaN anywhere in a row breaks self-equality of the
deserialized copies), the assertion succeeds despite the size difference,
for every tolerance. -/
theorem shorter_side_drop_succeeds (E R : DataFrame) (t : ℚ)
    (hs : E.schema = R.schema)
    (hpre : (∃ s, R.rows = E.rows ++ s ∧ ∀ x ∈ E.rows, pyEqL x x = true)
          ∨ (∃ s, E.rows = R.rows ++ s ∧ ∀ x ∈ R.rows, pyEqL x x = true)) :
    (assertDataFrameEqual E R t).1 = Outcome.ok := by
  have hall : ∀ p ∈ joinedPairs E R, equal t false p.2.1 p.2.2 = some true := by
    intro p hp
    rw [joinedPairs_eq_zip] at hp
    have hz := snd_mem_of_mem_indexedFrom _ 0 p hp
    rcases hpre with ⟨s, hrs, hself⟩ | ⟨s, hrs, hself⟩
    · rw [hrs, zip_append_right_self] at hz
      obtain ⟨heq, hmem⟩ := zip_self_mem _ p.2 hz
      refine equal_of_pyEqL t false _ _ ?_
      rw [← heq]
      exact hself p.2.1 hmem
    · rw [hrs, zip_append_left_self] at hz
      obtain ⟨heq, hmem⟩ := zip_self_mem _ p.2 hz
      refine equal_of_pyEqL t false _ _ ?_
      rw [← heq]
      exact hself p.2.1 hmem
  rw [assertDFE_ok_iff E R t hs]
  exact takeUnequal_all_true t 10 _ hall

/-- Witness for `shorter_side_drop_succeeds`: a one-row dataset against a
two-row extension of it. -/
theorem shorter_side_drop_succeeds_witness :
    (assertDataFrameEqual ⟨[⟨"i", "int"⟩], [[PyVal.int 1]]⟩
        ⟨[⟨"i", "int"⟩], [[PyVal.int 1], [PyVal.int 2]]⟩ 0).1 = Outcome.ok :=
  shorter_side_drop_succeeds _ _ 0 rfl (Or.inl ⟨[[PyVal.int 2]], rfl, by decide⟩)

/-- C6: every materialization the routine caches is unpersisted before it
returns, on every exit path: the event trace is empty exactly on the
schema-mismatch path (which runs before any caching) and is otherwise
cache-cache-unpersist-unpersist (success, row mismatch, or an exception
from `equal` — the `finally` block runs in all three); in particular the
cache and unpersist event counts balance for both datasets on every
outcome. -/
theorem unpersist_balanced (E R : DataFrame) (t : ℚ) :
    ((assertDataFrameEqual E R t).2.count Ev.cacheE =
        (assertDataFrameEqual E R t).2.count Ev.unpersistE)
    ∧ ((assertDataFrameEqual E R t).2.count Ev.cacheR =
        (assertDataFrameEqual E R t).2.count Ev.unpersistR)
    ∧ ((assertDataFrameEqual E R t).2 = []
        ∨ (assertDataFrameEqual E R t).2 =
            [Ev.cacheE, Ev.cacheR, Ev.unpersistE, Ev.unpersistR]) := by
  by_cases hs : E.schema = R.schema
  · simp only [assertDataFrameEqual, if_pos hs]
    cases differentRows E R t with
    | error e => exact ⟨rfl, rfl, Or.inr rfl⟩
    | ok l =>
      cases l with
      | nil => exact ⟨rfl, rfl, Or.inr rfl⟩
      | cons p rest => exact ⟨rfl, rfl, Or.inr rfl⟩
  · rw [assertDFE_schema_ne E R t hs]
    exact ⟨rfl, rfl, Or.inl rfl⟩

/-- C7 (counterexample): reflexivity fails on a dataset whose single row
holds NaN inside a nested (non-float) structure: the deserialized copies of
the row are not Python-equal, the field loop sees a non-float field that
differs, and the assertion reports a row mismatch instead of succeeding. -/
theorem reflexivity_fails_on_nested_nan :
    (assertDataFrameEqual ⟨[⟨"r", "struct"⟩], [[PyVal.row [PyVal.float PyFloat.nan]]]⟩
        ⟨[⟨"r", "struct"⟩], [[PyVal.row [PyVal.float PyFloat.nan]]]⟩ 0).1.isOk = false := by
  decide

/-- C7 (amended): `assertDataFrameEqual(D, D, 0)` succeeds for every
dataset `D` each of whose fields is either a top-level float (NaN included:
the tolerance branch accepts `abs(nan - nan) > 0 = False`) or
Python-self-equal (no NaN hidden inside a non-float field). -/
theorem reflexivity_selfok (D : DataFrame)
    (h : ∀ x ∈ D.rows, ∀ a ∈ x, selfOkField a = true) :
    (assertDataFrameEqual D D 0).1 = Outcome.ok := by
  have hall : ∀ p ∈ joinedPairs D D, equal 0 false p.2.1 p.2.2 = some true := by
    intro p hp
    rw [joinedPairs_eq_zip] at hp
    have hz := snd_mem_of_mem_indexedFrom _ 0 p hp
    obtain ⟨heq, hmem⟩ := zip_self_mem _ p.2 hz
    rw [← heq]
    exact equal_self 0 le_rfl p.2.1 (h p.2.1 hmem)
  rw [assertDFE_ok_iff D D 0 rfl]
  exact takeUnequal_all_true 0 10 _ hall

/-- Witness for `reflexivity_selfok`: a dataset mixing a top-level NaN
float, a finite float and a string. -/
theorem reflexivity_selfok_witness :
    (assertDataFrameEqual
        ⟨[⟨"d", "double"⟩, ⟨"s", "string"⟩],
          [[PyVal.float PyFloat.nan, PyVal.str "x"],
            [PyVal.float (PyFloat.fin 2), PyVal.str "y"]]⟩
        ⟨[⟨"d", "double"⟩, ⟨"s", "string"⟩],
          [[PyVal.float PyFloat.nan, PyVal.str "x"],
            [PyVal.float (PyFloat.fin 2), PyVal.str "y"]]⟩ 0).1 = Outcome.ok :=
  reflexivity_selfok _ (by decide)

/-- C8: a NaN expected field never rejects: the rejection test
`abs(nan - b) > tol` is `False` for every tolerance and every numeric
actual value, so the loop skips the field, and on non-identical records a
single NaN expected field yields acceptance. -/
theorem nan_field_always_accepted (tol : ℚ) (b : PyVal) (rest : List (PyVal × PyVal))
    (hb : isNumericV b = true) :
    fieldsEq tol ((PyVal.float PyFloat.nan, b) :: rest) = fieldsEq tol rest
    ∧ equal tol false [PyVal.float PyFloat.nan] [b] = some true := by
  have hdn : floatSub PyFloat.nan b = some PyFloat.nan := by
    cases b <;> simp [isNumericV] at hb <;> simp [floatSub, pfSub]
  have hne : pyEq (PyVal.float PyFloat.nan) b = false := by
    cases b with
    | float g => cases g <;> rfl
    | int n => rfl
    | bool t => rfl
    | str s => rfl
    | noneV => rfl
    | list l => rfl
    | row l => rfl
  refine ⟨?_, ?_⟩
  · simp [fieldsEq, hdn, pyFloatAbs, pyFloatGtQ]
  · rw [equal]
    simp [pyEqL, hne, fieldsEq, hdn, pyFloatAbs, pyFloatGtQ]

/-- Witness for `nan_field_always_accepted` at the (negative!) tolerance
`-1` against the integer `7`. -/
theorem nan_field_always_accepted_witness :
    isNumericV (PyVal.int 7) = true
    ∧ (fieldsEq (-1) ((PyVal.float PyFloat.nan, PyVal.int 7) :: []) = fieldsEq (-1) []
      ∧ equal (-1) false [PyVal.float PyFloat.nan] [PyVal.int 7] = some true) :=
  ⟨rfl, nan_field_always_accepted (-1) (PyVal.int 7) [] rfl⟩

/-- C9 (counterexample): same-length, non-identical records with a float
expected field facing a non-numeric actual field need not raise: here the
earlier integer field already differs, so the loop returns `False` before
the unguarded subtraction is ever reached. -/
theorem typeerror_claim_fails_early_reject :
    (([PyVal.int 0, PyVal.float (PyFloat.fin 1)] : List PyVal).length =
        ([PyVal.int 1, PyVal.noneV] : List PyVal).length)
    ∧ pyEqL [PyVal.int 0, PyVal.float (PyFloat.fin 1)] [PyVal.int 1, PyVal.noneV] = false
    ∧ isFloatV (PyVal.float (PyFloat.fin 1)) = true
    ∧ isNumericV PyVal.noneV = false
    ∧ equal 0 false [PyVal.int 0, PyVal.float (PyFloat.fin 1)]
        [PyVal.int 1, PyVal.noneV] = some false := by
  decide

/-- C9 (amended): the predicate is total under the precondition that every
field pair the loop can reach — all earlier pairs passing their checks —
with a float expected side has a numeric actual side; and whenever the
loop reaches a float expected field whose actual value is non-numeric with
every earlier field passing its check (so no earlier field rejects first),
the unguarded subtraction raises `TypeError` instead of returning
`False`. -/
theorem equal_totality_and_raise (tol : ℚ) (x y x' y' : List PyVal)
    (pre rest : List (PyVal × PyVal)) (f : PyFloat) (b : PyVal)
    (hx : ∀ p q s, x.zip y = p ++ q :: s →
      (∀ u ∈ p, codeFieldAcceptB tol u.1 u.2 = true) → needsOk q = true)
    (hlen : x'.length = y'.length)
    (hzip : x'.zip y' = pre ++ (PyVal.float f, b) :: rest)
    (hpre : ∀ u ∈ pre, codeFieldAcceptB tol u.1 u.2 = true)
    (hb : isNumericV b = false) :
    (∃ c, equal tol false x y = some c)
    ∧ equal tol false x' y' = Option.none := by
  constructor
  · by_cases hl : x.length = y.length
    · cases hq : pyEqL x y with
      | true => exact ⟨true, equal_of_pyEqL tol false x y hq⟩
      | false =>
        obtain ⟨c, hc⟩ := fieldsEq_total_reached tol (x.zip y) hx
        exact ⟨c, by rw [equal_eq_fieldsEq tol x y hl hq]; exact hc⟩
    · exact ⟨false, equal_of_length_ne tol false x y hl⟩
  · have hmem : (PyVal.float f, b) ∈ x'.zip y' := by
      rw [hzip]
      exact List.mem_append_right _ (List.mem_cons_self _ _)
    have hq : pyEqL x' y' = false := by
      cases hq' : pyEqL x' y' with
      | false => rfl
      | true =>
        exfalso
        have hpe := pyEqL_zip x' y' hq' _ hmem
        rw [pyEq_float_nonnumeric f b hb] at hpe
        exact Bool.noConfusion hpe
    rw [equal_eq_fieldsEq tol x' y' hlen hq, hzip]
    exact fieldsEq_raises tol pre f b rest hpre hb

/-- Witness for `equal_totality_and_raise`: the reached-pairs precondition
holds for the string records `["u"]` and `["v"]` (total), while `[0, 1.0]`
against `[0, None]` — the integer field passing, the loop then reaching the
unguarded subtraction — raises. -/
theorem equal_totality_and_raise_witness :
    (∃ c, equal 0 false [PyVal.str "u"] [PyVal.str "v"] = some c)
    ∧ equal 0 false [PyVal.int 0, PyVal.float (PyFloat.fin 1)]
        [PyVal.int 0, PyVal.noneV] = Option.none :=
  equal_totality_and_raise 0 [PyVal.str "u"] [PyVal.str "v"]
    [PyVal.int 0, PyVal.float (PyFloat.fin 1)] [PyVal.int 0, PyVal.noneV]
    [(PyVal.int 0, PyVal.int 0)] [] (PyFloat.fin 1) PyVal.noneV
    (by
      intro p q s heq hacc
      have heq' : [(PyVal.str "u", PyVal.str "v")] = p ++ q :: s := heq
      cases p with
      | nil =>
        injection heq' with h1 _
        rw [← h1]
        rfl
      | cons p0 p' =>
        injection heq' with _ h2
        cases p' <;> simp at h2)
    rfl rfl (by decide) rfl

/-- C10: applied to one and the same record object — so that the CPython
identity shortcut makes the `x == y` test succeed before any per-field
tolerance comparison — `equal` returns `True` for every record and every
tolerance, negative tolerances included. -/
theorem equal_same_object_true (tol : ℚ) (r : List PyVal) :
    equal tol true r r = some true := by
  rw [equal]
  simp
